import Mathlib

/-!
Verification of the editpy editing buffer and search engine
(`src/editpy/core/buffer.py`, `src/editpy/utils/search.py`).

Shallow embedding conventions:
* Python `bytearray` / `bytes` are `List Nat` (each element a byte value).
* Python `str` is `List Nat` of code points; `str.lower` is modelled on the
  ASCII range (the ASCII projection used for matching only contains ASCII).
* Python byte positions are naturals (the editor only produces non-negative
  positions; negative arguments behave like the out-of-range cases modelled).
* A raised exception (IndexError / ValueError) is `none` of an `Option`.
* `deque(maxlen=100)` is a list whose append drops the oldest element past
  the capacity; the end of the list is the top of the stack.
-/

namespace Editpy

/-- `CHUNK_SIZE` from `Buffer`. -/
def CHUNK_SIZE : Nat := 1024 * 1024

/-- `bytearray.insert(i, v)`: Python clamps the index to the length. -/
def listInsert (l : List Nat) (i : Nat) (v : Nat) : List Nat :=
  l.take i ++ v :: l.drop i

/-- `del bytearray[i]` for an in-range index. -/
def listDel (l : List Nat) (i : Nat) : List Nat :=
  l.take i ++ l.drop (i + 1)

/-- Python read slice `l[start:stop]` with non-negative bounds (clamping). -/
def sliceGet (l : List Nat) (start stop : Nat) : List Nat :=
  (l.take stop).drop start

/-- Python slice assignment `l[start:stop] = repl` with non-negative bounds:
the bounds are clamped to the length and an inverted range denotes an
insertion point. -/
def sliceAssign (l : List Nat) (start stop : Nat) (repl : List Nat) : List Nat :=
  l.take (min start l.length) ++ repl ++
    l.drop (max (min start l.length) (min stop l.length))

/-- Python `bytes.find(needle, start)` / `str.find(needle, start)`: smallest
index `i ≥ start` with `i + |needle| ≤ |l|` where `needle` occurs, else none. -/
def listFind (l needle : List Nat) (start : Nat) : Option Nat :=
  (List.range (l.length + 1)).find? fun i =>
    decide (start ≤ i) && decide (i + needle.length ≤ l.length) &&
      decide ((l.drop i).take needle.length = needle)

/-- The ASCII projection used by text/regex/wildcard search:
`chr(b) if 32 <= b <= 126 else '.'` (`'.'` is code point 46). -/
def asciiProj (data : List Nat) : List Nat :=
  data.map fun v => if 32 ≤ v ∧ v ≤ 126 then v else 46

/-- `str.lower` on the ASCII range (the matching space is ASCII). -/
def lowerAscii (c : Nat) : Nat :=
  if 65 ≤ c ∧ c ≤ 90 then c + 32 else c

/-- Value of one hexadecimal digit. -/
def hexVal (c : Nat) : Option Nat :=
  if 48 ≤ c ∧ c ≤ 57 then some (c - 48)
  else if 97 ≤ c ∧ c ≤ 102 then some (c - 87)
  else if 65 ≤ c ∧ c ≤ 70 then some (c - 55)
  else none

/-- `bytes.fromhex` on a whitespace-free string: pairs of hex digits;
an odd length or a non-hex digit raises `ValueError` (`none`). -/
def hexParse : List Nat → Option (List Nat)
  | [] => some []
  | _ :: [] => none
  | a :: b :: rest =>
    match hexVal a, hexVal b with
    | some x, some y => (hexParse rest).map fun t => (x * 16 + y) :: t
    | _, _ => none

/-- `''.join(pattern.split())`: remove ASCII whitespace. -/
def removeWs (p : List Nat) : List Nat :=
  p.filter fun c => !(c = 32 || c = 9 || c = 10 || c = 13 || c = 11 || c = 12)

/-- UTF-8 encoding of one code point (`str.encode('utf-8')`). -/
def utf8EncodeChar (c : Nat) : List Nat :=
  if c < 128 then [c]
  else if c < 2048 then [192 + c / 64, 128 + c % 64]
  else if c < 65536 then [224 + c / 4096, 128 + c / 64 % 64, 128 + c % 64]
  else [240 + c / 262144, 128 + c / 4096 % 64, 128 + c / 64 % 64, 128 + c % 64]

/-- `str.encode('utf-8')` over a code-point list. -/
def utf8Encode (s : List Nat) : List Nat :=
  s.foldr (fun c acc => utf8EncodeChar c ++ acc) []

/-- `bytes.decode('utf-8', errors='replace')`: ill-formed sequences become
U+FFFD (65533).  Exact replacement-count corner cases of CPython are not
observable by the properties proved here (the undo/redo theorems only use
that decoding is a function of the recorded bytes). -/
def utf8DecodeStep (b : Nat) (rest : List Nat) : Nat × Nat :=
  if b < 128 then (0, b)
  else if 194 ≤ b && b ≤ 223 then
    match rest with
    | c :: _ =>
      if 128 ≤ c && c ≤ 191 then (1, (b - 192) * 64 + (c - 128)) else (0, 65533)
    | [] => (0, 65533)
  else if 224 ≤ b && b ≤ 239 then
    match rest with
    | c :: c2 :: _ =>
      if (128 ≤ c && c ≤ 191) && (128 ≤ c2 && c2 ≤ 191) then
        (2, (b - 224) * 4096 + (c - 128) * 64 + (c2 - 128))
      else (0, 65533)
    | _ => (0, 65533)
  else if 240 ≤ b && b ≤ 244 then
    match rest with
    | c :: c2 :: c3 :: _ =>
      if (128 ≤ c && c ≤ 191) && (128 ≤ c2 && c2 ≤ 191) && (128 ≤ c3 && c3 ≤ 191) then
        (3, (b - 240) * 262144 + (c - 128) * 4096 + (c2 - 128) * 64 + (c3 - 128))
      else (0, 65533)
    | _ => (0, 65533)
  else (0, 65533)

def utf8Decode : List Nat → List Nat
  | [] => []
  | b :: rest =>
    let st := utf8DecodeStep b rest
    st.2 :: utf8Decode (rest.drop st.1)
termination_by l => l.length
decreasing_by simp [List.length_drop]; omega

/-- `str.splitlines` restricted to `\n`, `\r`, `\r\n` separators (the other
Unicode line boundaries do not occur in the properties proved here). -/
def splitLinesAux : List Nat → List Nat → List (List Nat)
  | [], acc => if acc.isEmpty then [] else [acc.reverse]
  | 13 :: 10 :: rest, acc => acc.reverse :: splitLinesAux rest []
  | 13 :: rest, acc => acc.reverse :: splitLinesAux rest []
  | 10 :: rest, acc => acc.reverse :: splitLinesAux rest []
  | c :: rest, acc => splitLinesAux rest (c :: acc)

/-- `str.splitlines`. -/
def splitLines (s : List Nat) : List (List Nat) := splitLinesAux s []

/-- `UndoAction` (dataclass in `core/buffer.py`): position, before-image,
after-image, a tag string, and the ordered sub-actions of a batch. -/
inductive UndoAction : Type where
  | mk (position : Nat) (old_data : List Nat) (new_data : List Nat)
       (action_type : String) (batch_actions : List UndoAction) : UndoAction

def UndoAction.position : UndoAction → Nat
  | .mk p _ _ _ _ => p

def UndoAction.old_data : UndoAction → List Nat
  | .mk _ o _ _ _ => o

def UndoAction.new_data : UndoAction → List Nat
  | .mk _ _ n _ _ => n

def UndoAction.action_type : UndoAction → String
  | .mk _ _ _ t _ => t

def UndoAction.batch_actions : UndoAction → List UndoAction
  | .mk _ _ _ _ bs => bs

/-- `deque(maxlen=100).append`: append at the end, dropping the oldest
entries once the capacity is exceeded. -/
def dequeAppend (l : List UndoAction) (a : UndoAction) : List UndoAction :=
  let l2 := l ++ [a]
  if l2.length > 100 then l2.drop (l2.length - 100) else l2

/-- The `Buffer` state (`Buffer.__init__`).  `file_map` models the read-only
mmap of a large file as a byte lookup; the chunk cache is an association
list with the insertion order of a Python dict. -/
structure Buffer where
  data : List Nat
  modified : Bool
  filename : Option String
  cursor_pos : Nat
  undo_stack : List UndoAction
  redo_stack : List UndoAction
  selection_start : Option Nat
  selection_end : Option Nat
  bytes_per_line : Nat
  is_code_file : Bool
  language : Option String
  code_lines : List (List Nat)
  line_count : Nat
  top_line : Nat
  cursor_line : Nat
  cursor_column : Nat
  edit_mode : Bool
  file_size : Nat
  file_map : Option (Nat → Nat)
  is_large_file : Bool
  loaded_chunks : List (Nat × List Nat)

/-- A freshly constructed `Buffer(initial_data)` whose cursor was then moved
to `cursor` by the input dispatcher (`cursor_pos` is written directly by
`ui/input_handler.py`; every other field is as `__init__` leaves it). -/
def mkBuf (initial_data : List Nat) (cursor : Nat) : Buffer where
  data := initial_data
  modified := false
  filename := none
  cursor_pos := cursor
  undo_stack := []
  redo_stack := []
  selection_start := none
  selection_end := none
  bytes_per_line := 16
  is_code_file := false
  language := none
  code_lines := []
  line_count := 0
  top_line := 0
  cursor_line := 0
  cursor_column := 0
  edit_mode := false
  file_size := 0
  file_map := none
  is_large_file := false
  loaded_chunks := []

/-- `Buffer.insert_byte`: a value outside `0..255` raises (`none`); the
position is clamped into `[0, len]`; the action is pushed, the redo log
cleared, and the byte inserted. -/
def insert_byte (b : Buffer) (position value : Nat) : Option Buffer :=
  if value > 255 then none
  else
    let p := min position b.data.length
    some { b with
      undo_stack := dequeAppend b.undo_stack (.mk p [] [value] "insert" [])
      redo_stack := []
      data := listInsert b.data p value
      modified := true }

/-- `Buffer.delete_byte`: out-of-range positions are ignored; otherwise the
action is pushed, the redo log cleared, the byte removed, and the cursor
clamped to `max 0 (len - 1)` when it fell off the end. -/
def delete_byte (b : Buffer) (position : Nat) : Buffer :=
  if position < b.data.length then
    let old := b.data.getD position 0
    let data2 := listDel b.data position
    { b with
      undo_stack := dequeAppend b.undo_stack (.mk position [old] [] "delete" [])
      redo_stack := []
      data := data2
      modified := true
      cursor_pos := if b.cursor_pos ≥ data2.length then data2.length - 1 else b.cursor_pos }
  else b

/-- `Buffer.replace_byte`: a value outside `0..255` raises (`none`);
out-of-range positions and a value equal to the current byte are ignored. -/
def replace_byte (b : Buffer) (position value : Nat) : Option Buffer :=
  if value > 255 then none
  else if position < b.data.length then
    let old := b.data.getD position 0
    if old = value then some b
    else some { b with
      undo_stack := dequeAppend b.undo_stack (.mk position [old] [value] "replace" [])
      redo_stack := []
      data := b.data.set position value
      modified := true }
  else some b

/-- One reversed-order step of the `batch_replace` branch of `Buffer.undo`:
`replace_range` splices `old_data` over the range of `new_data`;
`replace_line` (code view only) restores the decoded old line. -/
def batchUndoStep (b : Buffer) (s : UndoAction) : Buffer :=
  if s.action_type = "replace_range" then
    { b with data := sliceAssign b.data s.position (s.position + s.new_data.length) s.old_data }
  else if s.action_type = "replace_line" then
    if b.is_code_file then
      if s.position < b.code_lines.length then
        { b with code_lines := b.code_lines.set s.position (utf8Decode s.old_data) }
      else b
    else b
  else b

/-- The action dispatch of `Buffer.undo` (after the pop / redo push).
`none` models an `IndexError` escaping the method. -/
def undoApply (b : Buffer) (action : UndoAction) : Option Buffer :=
  if action.action_type = "batch_replace" then
    some (action.batch_actions.reverse.foldl batchUndoStep b)
  else if action.action_type = "insert" then
    if action.position < b.data.length then
      some { b with data := listDel b.data action.position }
    else none
  else if action.action_type = "delete" then
    if action.old_data = [] then none
    else some { b with
      data := listInsert b.data action.position (action.old_data.headD 0) }
  else if action.action_type = "replace" then
    if action.old_data = [] then none
    else if action.position < b.data.length then
      some { b with data := b.data.set action.position (action.old_data.headD 0) }
    else none
  else if action.action_type = "replace_range" then
    some { b with
      data := sliceAssign b.data action.position (action.position + action.new_data.length)
        action.old_data
      cursor_pos := action.position }
  else if action.action_type = "replace_line" then
    if b.is_code_file then
      if action.position < b.code_lines.length then
        some { b with
          code_lines := b.code_lines.set action.position (utf8Decode action.old_data)
          cursor_line := action.position
          cursor_column := 0 }
      else some b
    else some b
  else some b

/-- The final cursor clamp shared by `Buffer.undo` and `Buffer.redo`. -/
def clampCursor (b : Buffer) : Buffer :=
  if b.is_code_file = false ∧ b.cursor_pos ≥ b.data.length then
    { b with cursor_pos := b.data.length - 1 }
  else b

/-- `Buffer.undo`: returns the new state and the reported boolean, `none`
when the replay raises. -/
def undoB (b : Buffer) : Option (Buffer × Bool) :=
  match b.undo_stack.getLast? with
  | none => some (b, false)
  | some action =>
    let b1 : Buffer := { b with
      undo_stack := b.undo_stack.dropLast
      redo_stack := dequeAppend b.redo_stack action }
    (undoApply b1 action).map fun b2 =>
      (clampCursor { b2 with modified := !b2.undo_stack.isEmpty }, true)

/-- Keys of the chunk cache. -/
def chunkKeys (cs : List (Nat × List Nat)) : List Nat := cs.map (·.1)

/-- `chunk_index in self.loaded_chunks` / `self.loaded_chunks[chunk_index]`. -/
def lookupChunk (cs : List (Nat × List Nat)) (k : Nat) : Option (List Nat) :=
  (cs.find? fun p => p.1 == k).map (·.2)

/-- `self.loaded_chunks[k] = v` on a dict: overwrite if present, else append. -/
def insertChunk (cs : List (Nat × List Nat)) (k : Nat) (v : List Nat) :
    List (Nat × List Nat) :=
  if (cs.find? fun p => p.1 == k).isSome then
    cs.map fun p => if p.1 == k then (k, v) else p
  else cs ++ [(k, v)]

/-- `Buffer._load_chunk`: no-op without a mapping; a start past end-of-file
caches an empty chunk and returns (skipping the eviction check); otherwise
the chunk bytes are cached and, past 5 entries, the smallest chunk index is
evicted unless it is the one just requested. -/
def load_chunk (b : Buffer) (chunk_index : Nat) : Buffer :=
  match b.file_map with
  | none => b
  | some fm =>
    let start_pos := chunk_index * CHUNK_SIZE
    let end_pos := min (start_pos + CHUNK_SIZE) b.file_size
    if start_pos ≥ b.file_size then
      { b with loaded_chunks := insertChunk b.loaded_chunks chunk_index [] }
    else
      let cs1 := insertChunk b.loaded_chunks chunk_index
        ((List.range (end_pos - start_pos)).map fun j => fm (start_pos + j))
      if cs1.length > 5 then
        let oldest := (chunkKeys cs1).min?.getD 0
        if oldest ≠ chunk_index then
          { b with loaded_chunks := cs1.filter fun p => !(p.1 == oldest) }
        else { b with loaded_chunks := cs1 }
      else { b with loaded_chunks := cs1 }

/-- `Buffer.get_line`: hex line and its ASCII rendering, plus the buffer with
a possibly updated chunk cache.  `none` models the `KeyError` when the
requested chunk could not be loaded (large file without a mapping). -/
def get_line (b : Buffer) (line_number : Nat) :
    Option ((List Nat × List Nat) × Buffer) :=
  if b.is_large_file then
    let chunk_index := line_number * b.bytes_per_line / CHUNK_SIZE
    let chunk_offset := line_number * b.bytes_per_line % CHUNK_SIZE
    let b1 := if (lookupChunk b.loaded_chunks chunk_index).isSome then b
              else load_chunk b chunk_index
    match lookupChunk b1.loaded_chunks chunk_index with
    | none => none
    | some chunk_data =>
      let e := min (chunk_offset + b.bytes_per_line) chunk_data.length
      let hex_data := sliceGet chunk_data chunk_offset e
      some ((hex_data, asciiProj hex_data), b1)
  else
    let start := line_number * b.bytes_per_line
    let e := min (start + b.bytes_per_line) b.data.length
    let hex_data := sliceGet b.data start e
    some ((hex_data, asciiProj hex_data), b)

/-- `Buffer._is_binary_file`.  The float thresholds `len * 0.1` and
`len * 0.8` are expressed as the exact rational comparisons. -/
def is_binary_file (sample : List Nat) : Bool :=
  let null_count := sample.count 0
  let printable_count :=
    (sample.filter fun v => (32 ≤ v && v ≤ 126) || v = 9 || v = 10 || v = 13).length
  null_count * 10 > sample.length || printable_count * 5 < sample.length * 4

/-- `Buffer._load_text_chunk` for chunk 0 (the only call site), with the
mapping bytes decoded and split into lines. -/
def load_text_chunk (b : Buffer) (chunk_index : Nat) : Buffer :=
  match b.file_map with
  | none => b
  | some fm =>
    let start_pos := chunk_index * CHUNK_SIZE
    let end_pos := min (start_pos + CHUNK_SIZE) b.file_size
    if start_pos ≥ b.file_size then b
    else
      let lines := splitLines (utf8Decode
        ((List.range (end_pos - start_pos)).map fun j => fm (start_pos + j)))
      if chunk_index = 0 then { b with code_lines := lines }
      else { b with code_lines := b.code_lines ++ lines }

/-- `Buffer._detect_file_type`.  The external highlighter collaborator is
the opaque classification signal `langSignal`
(`detect_language(filename, sample)`). -/
def detect_file_type (b : Buffer) (sample : List Nat)
    (langSignal : Option String) : Buffer :=
  let b0 := { b with is_code_file := false, language := none,
                     code_lines := ([] : List (List Nat)) }
  if is_binary_file sample then b0
  else
    match b0.filename with
    | none => b0
    | some _ =>
      let b1 := { b0 with language := langSignal }
      match langSignal with
      | none => b1
      | some _ =>
        let b2 := { b1 with is_code_file := true, edit_mode := true }
        if b2.is_large_file then load_text_chunk b2 0
        else { b2 with code_lines := splitLines (utf8Decode b2.data) }

/-- `Buffer.load_file`, with the file system supplied as the byte contents
of `fname`.  Files over 10 MiB go through `_load_large_file` (mmap +
chunk 0); smaller files are read whole. -/
def load_file (b : Buffer) (fname : String) (contents : List Nat)
    (langSignal : Option String) : Buffer :=
  let b1 := { b with
    filename := some fname
    modified := false
    cursor_pos := 0
    undo_stack := ([] : List UndoAction)
    redo_stack := ([] : List UndoAction)
    file_size := contents.length }
  if contents.length > 10 * 1024 * 1024 then
    let b2 := { b1 with is_large_file := true,
                        file_map := some fun i => contents.getD i 0 }
    let b3 := load_chunk b2 0
    let chunk0 := (lookupChunk b3.loaded_chunks 0).getD []
    let sample := sliceGet chunk0 0 (min 4096 chunk0.length)
    detect_file_type b3 sample langSignal
  else
    let b2 := { b1 with is_large_file := false, data := contents }
    let sample := sliceGet contents 0 (min 4096 contents.length)
    detect_file_type b2 sample langSignal

/-- `SearchResult` (`utils/search.py`): absolute position, byte count, and
the matched bytes. -/
structure SearchResult where
  position : Nat
  length : Nat
  matched : List Nat
deriving DecidableEq

/-- `SearchEngine` state: the remembered `last_search` triple
`(pattern, search_type, case_sensitive)`. -/
structure SearchEngine where
  last_search : Option (List Nat × String × Bool)
deriving DecidableEq

/-- `SearchEngine.find_hex`: parse the whitespace-stripped pattern as hex
bytes and find them literally in the raw data. -/
def find_hex (b : Buffer) (pattern : List Nat) (start_pos : Nat) :
    Option SearchResult :=
  match hexParse (removeWs pattern) with
  | none => none
  | some hex_bytes =>
    match listFind b.data hex_bytes start_pos with
    | some pos => some ⟨pos, hex_bytes.length, hex_bytes⟩
    | none => none

/-- `SearchEngine.find_text`: literal find over the ASCII projection,
optionally lowercasing both sides. -/
def find_text (b : Buffer) (text : List Nat) (case_sensitive : Bool)
    (start_pos : Nat) : Option SearchResult :=
  if case_sensitive then
    (listFind (asciiProj b.data) text start_pos).map fun pos =>
      ⟨pos, text.length, sliceGet b.data pos (pos + text.length)⟩
  else
    (listFind ((asciiProj b.data).map lowerAscii) (text.map lowerAscii) start_pos).map
      fun pos => ⟨pos, text.length, sliceGet b.data pos (pos + text.length)⟩

/-- `SearchEngine.find_regex`.  The external `re` engine (the compiled
pattern with its flags) enters as `rsp`: `rsp s pos` is
`regex.search(s, pos)` returning the match span; a malformed pattern is the
engine that never matches (the exception is caught and `None` returned). -/
def find_regex (b : Buffer) (rsp : List Nat → Nat → Option (Nat × Nat))
    (start_pos : Nat) : Option SearchResult :=
  match rsp (asciiProj b.data) start_pos with
  | some (s, e) => some ⟨s, e - s, sliceGet b.data s e⟩
  | none => none

/-- Atoms of the regular expressions produced by the wildcard translation:
`.` (with `DOTALL`), a literal code point, or the `\d` class that an
unescaped backslash in the pattern can produce. -/
inductive RAtom : Type where
  | any : RAtom
  | lit (c : Nat) : RAtom
  | digit : RAtom
deriving DecidableEq

def atomMatch : RAtom → Nat → Bool
  | .any, _ => true
  | .lit c, d => c == d
  | .digit, d => 48 ≤ d && d ≤ 57

/-- Translation of one wildcard-pattern character
(the loop body of `find_wildcard`). -/
def wildcardTrChar (c : Nat) : List Nat :=
  if c = 42 then [46, 42]
  else if c = 63 then [46]
  else if c = 46 || c = 43 || c = 40 || c = 41 || c = 91 || c = 93 ||
          c = 123 || c = 125 || c = 94 || c = 36 || c = 124 then [92, c]
  else [c]

/-- The full wildcard-to-regex translation of `find_wildcard`. -/
def wildcardTranslate (pattern : List Nat) : List Nat :=
  pattern.foldr (fun c acc => wildcardTrChar c ++ acc) []

/-- Parse a translated pattern into a sequence of optionally starred atoms.
This models `re.compile` on the fragment the translation can produce
(literal characters, `.`, escaped metacharacters, and the escape sequences
a raw backslash forms with the following character; `\d` is the digit
class, an escaped non-alphanumeric character is a literal, and any other
escape is treated as a compile error, i.e. `none`). -/
def escapedAtom (c : Nat) : Option RAtom :=
  if c = 100 then some .digit
  else if (48 ≤ c && c ≤ 57) || (65 ≤ c && c ≤ 90) || (97 ≤ c && c ≤ 122) then none
  else some (.lit c)

def regexCompile : List Nat → Option (List (RAtom × Bool))
  | [] => some []
  | 92 :: [] => none
  | 92 :: c :: 42 :: rest =>
    match escapedAtom c with
    | none => none
    | some a => (regexCompile rest).map fun t => (a, true) :: t
  | 92 :: c :: rest =>
    match escapedAtom c with
    | none => none
    | some a => (regexCompile rest).map fun t => (a, false) :: t
  | 46 :: 42 :: rest => (regexCompile rest).map fun t => (RAtom.any, true) :: t
  | 46 :: rest => (regexCompile rest).map fun t => (RAtom.any, false) :: t
  | c :: 42 :: rest => (regexCompile rest).map fun t => (RAtom.lit c, true) :: t
  | c :: rest => (regexCompile rest).map fun t => (RAtom.lit c, false) :: t

/-- Backtracking matcher with the greedy preference of `re`: the length
matched at the head of `s`, or `none`.  Every recursive call strictly
decreases `atoms.length + s.length`, so the explicit bound passed by
`matchHere` makes the fuel case unreachable. -/
def matchHereF : Nat → List (RAtom × Bool) → List Nat → Option Nat
  | 0, _, _ => none
  | _ + 1, [], _ => some 0
  | _ + 1, (_, false) :: _, [] => none
  | fuel + 1, (a, false) :: rest, c :: s2 =>
    if atomMatch a c then (matchHereF fuel rest s2).map (· + 1) else none
  | fuel + 1, (_, true) :: rest, [] => matchHereF fuel rest []
  | fuel + 1, (a, true) :: rest, c :: s2 =>
    if atomMatch a c then
      match matchHereF fuel ((a, true) :: rest) s2 with
      | some k => some (k + 1)
      | none => matchHereF fuel rest (c :: s2)
    else matchHereF fuel rest (c :: s2)

def matchHere (atoms : List (RAtom × Bool)) (s : List Nat) : Option Nat :=
  matchHereF (atoms.length + s.length + 1) atoms s

/-- Leftmost search: try each start from `i`, `fuel` positions in all. -/
def regexSearchAux (atoms : List (RAtom × Bool)) (s : List Nat) :
    Nat → Nat → Option (Nat × Nat)
  | _, 0 => none
  | i, fuel + 1 =>
    match matchHere atoms (s.drop i) with
    | some k => some (i, i + k)
    | none => regexSearchAux atoms s (i + 1) fuel

/-- `regex.search(s, pos)` for a compiled atom sequence. -/
def regexSearch (atoms : List (RAtom × Bool)) (s : List Nat) (start : Nat) :
    Option (Nat × Nat) :=
  if start ≤ s.length then regexSearchAux atoms s start (s.length + 1 - start) else none

/-- `SearchEngine.find_wildcard`: translate the pattern, compile it (a
compile failure is caught and yields `None`), and search the ASCII
projection. -/
def find_wildcard (b : Buffer) (pattern : List Nat) (start_pos : Nat) :
    Option SearchResult :=
  if pattern = [] then none
  else
    match regexCompile (wildcardTranslate pattern) with
    | none => none
    | some atoms =>
      match regexSearch atoms (asciiProj b.data) start_pos with
      | some (s, e) => some ⟨s, e - s, sliceGet b.data s e⟩
      | none => none

/-- `SearchEngine.find_next`: empty patterns yield nothing and record no
search; otherwise `last_search` is updated and the mode-specific finder runs
from `start_pos` (defaulting to the cursor). -/
def find_next (eng : SearchEngine) (b : Buffer) (pattern : List Nat)
    (search_type : String) (case_sensitive : Bool) (start_pos : Option Nat)
    (rsp : List Nat → Nat → Option (Nat × Nat)) :
    Option SearchResult × SearchEngine :=
  if pattern = [] then (none, eng)
  else
    let eng2 : SearchEngine := ⟨some (pattern, search_type, case_sensitive)⟩
    let sp := start_pos.getD b.cursor_pos
    let r :=
      if search_type = "hex" then find_hex b pattern sp
      else if search_type = "regex" then find_regex b rsp sp
      else if search_type = "wildcard" then find_wildcard b pattern sp
      else find_text b pattern case_sensitive sp
    (r, eng2)

/-- `SearchEngine.replace_next`: find from the cursor, parse the replacement
(hex mode parses hex, every other mode UTF-8-encodes), splice it over the
match, and append a `'replace'` action to the undo stack. -/
def replace_next (eng : SearchEngine) (b : Buffer) (pattern replacement : List Nat)
    (search_type : String) (case_sensitive : Bool)
    (rsp : List Nat → Nat → Option (Nat × Nat)) :
    Bool × SearchEngine × Buffer :=
  match find_next eng b pattern search_type case_sensitive none rsp with
  | (none, eng2) => (false, eng2, b)
  | (some result, eng2) =>
    let repl? := if search_type = "hex" then hexParse (removeWs replacement)
                 else some (utf8Encode replacement)
    match repl? with
    | none => (false, eng2, b)
    | some replacement_bytes =>
      let old_data := sliceGet b.data result.position (result.position + result.length)
      (true, eng2, { b with
        data := sliceAssign b.data result.position (result.position + result.length)
          replacement_bytes
        undo_stack := dequeAppend b.undo_stack
          (.mk result.position old_data replacement_bytes "replace" []) })

/-- `SearchEngine.replace_all`: repeat `replace_next` until it fails,
counting replacements.  The Python loop is unbounded; `fuel` caps the
repetitions modelled (sufficient for every run that terminates within it). -/
def replace_all (fuel : Nat) (eng : SearchEngine) (b : Buffer)
    (pattern replacement : List Nat) (search_type : String)
    (case_sensitive : Bool) (rsp : List Nat → Nat → Option (Nat × Nat)) :
    Nat × SearchEngine × Buffer :=
  match fuel with
  | 0 => (0, eng, b)
  | fuel + 1 =>
    match replace_next eng b pattern replacement search_type case_sensitive rsp with
    | (false, eng2, b2) => (0, eng2, b2)
    | (true, eng2, b2) =>
      let r := replace_all fuel eng2 b2 pattern replacement search_type case_sensitive rsp
      (r.1 + 1, r.2.1, r.2.2)

/-- The scan loop of `find_all`: collect matches, restarting one byte past
each, stopping on a miss or once the restart reaches the data length.  The
Python loop is `while True`; `fuel` bounds the iterations modelled (under
the finder contract `dataLen + 2` always suffices). -/
def findAllLoop (f : Nat → Option SearchResult) (dataLen : Nat) :
    Nat → Nat → List SearchResult
  | 0, _ => []
  | fuel + 1, pos =>
    match f pos with
    | none => []
    | some r =>
      r :: (if r.position + 1 ≥ dataLen then []
            else findAllLoop f dataLen fuel (r.position + 1))

/-- `SearchEngine.find_all`: empty patterns yield `[]` and record nothing;
otherwise `last_search` is updated and the scan starts at position 0. -/
def find_all (eng : SearchEngine) (b : Buffer) (pattern : List Nat)
    (search_type : String) (case_sensitive : Bool)
    (rsp : List Nat → Nat → Option (Nat × Nat)) :
    List SearchResult × SearchEngine :=
  if pattern = [] then ([], eng)
  else
    let eng2 : SearchEngine := ⟨some (pattern, search_type, case_sensitive)⟩
    let f : Nat → Option SearchResult := fun pos =>
      if search_type = "hex" then find_hex b pattern pos
      else if search_type = "regex" then find_regex b rsp pos
      else if search_type = "wildcard" then find_wildcard b pattern pos
      else find_text b pattern case_sensitive pos
    (findAllLoop f b.data.length (b.data.length + 2) 0, eng2)

/-! Concrete states used by the evaluations below. -/

/-- A fresh `SearchEngine` (no remembered search). -/
def engine0 : SearchEngine := ⟨none⟩

/-- A trivially well-behaved external regex engine (never matches), as a
stand-in where the regex discipline is not under test. -/
def rspNone : List Nat → Nat → Option (Nat × Nat) := fun _ _ => none

/-- Buffer holding bytes `AA BB`. -/
def bufAABB : Buffer := mkBuf [170, 187] 0

/-- `replace_next("AABB", "CC", search_type='hex')` on `bufAABB`. -/
def c1step : Bool × SearchEngine × Buffer :=
  replace_next engine0 bufAABB [65, 65, 66, 66] [67, 67] "hex" false rspNone

/-- `replace_all("AA", "BB", search_type='hex')` on bytes `AA 01 AA 02 AA`
(the loop ends by itself within the modelled fuel). -/
def c1all : Nat × SearchEngine × Buffer :=
  replace_all 10 engine0 (mkBuf [170, 1, 170, 2, 170] 0) [65, 65] [66, 66] "hex" false rspNone

/-- Buffer `[1, 2, 3]` with the cursor on the last byte. -/
def bufC2 : Buffer := mkBuf [1, 2, 3] 2

/-- A chunked buffer over a 1-byte backing file with an empty cache. -/
def bufC3 : Buffer :=
  { mkBuf [] 0 with is_large_file := true, file_size := 1, file_map := some fun _ => 0 }

/-- One `get_line` call addressed at chunk `k` (line `k * 65536` at 16
bytes per line), keeping only the resulting buffer. -/
def c3line (b : Buffer) (k : Nat) : Option Buffer :=
  (get_line b (k * 65536)).map (·.2)

/-- Six `get_line` requests for the distinct chunks 11–16, all past
end-of-file. -/
def c3chain : Option Buffer :=
  (((((c3line bufC3 11).bind fun b => c3line b 12).bind fun b => c3line b 13).bind
    fun b => c3line b 14).bind fun b => c3line b 15).bind fun b => c3line b 16

/-- The eleven regex metacharacters `find_wildcard` escapes. -/
def wildcardMeta : List Nat := [46, 43, 40, 41, 91, 93, 123, 125, 94, 36, 124]

/-- A chunked buffer with five cached chunks 0–4 over a 10-chunk file. -/
def c3wb : Buffer :=
  { mkBuf [] 0 with
    is_large_file := true
    file_size := CHUNK_SIZE * 10
    file_map := some fun _ => 7
    loaded_chunks := [(0, []), (1, []), (2, []), (3, []), (4, [])] }

/-!  Theorems.  Each claim of the specification is settled below; helper
lemmas shared between claims precede them. -/

theorem listInsert_zero (l : List Nat) (v : Nat) : listInsert l 0 v = v :: l := by
  simp [listInsert]

theorem listInsert_cons (x : Nat) (xs : List Nat) (i v : Nat) :
    listInsert (x :: xs) (i + 1) v = x :: listInsert xs i v := by
  simp [listInsert]

theorem listDel_zero (x : Nat) (xs : List Nat) : listDel (x :: xs) 0 = xs := by
  simp [listDel]

theorem listDel_cons (x : Nat) (xs : List Nat) (i : Nat) :
    listDel (x :: xs) (i + 1) = x :: listDel xs i := by
  simp [listDel]

/-- Deleting at the index just inserted at recovers the original list. -/
theorem listDel_listInsert (l : List Nat) (i v : Nat) (h : i ≤ l.length) :
    listDel (listInsert l i v) i = l := by
  induction l generalizing i with
  | nil =>
    have : i = 0 := Nat.le_zero.mp h
    subst this
    simp [listInsert, listDel]
  | cons x xs ih =>
    cases i with
    | zero => simp [listInsert_zero, listDel_zero]
    | succ j =>
      rw [listInsert_cons, listDel_cons, ih]
      exact Nat.le_of_succ_le_succ h

/-- Re-inserting the byte just deleted recovers the original list. -/
theorem listInsert_listDel (l : List Nat) (i : Nat) (h : i < l.length) :
    listInsert (listDel l i) i (l.getD i 0) = l := by
  induction l generalizing i with
  | nil => simp at h
  | cons x xs ih =>
    cases i with
    | zero => simp [listDel_zero, listInsert_zero]
    | succ j =>
      rw [listDel_cons, listInsert_cons]
      have : (x :: xs).getD (j + 1) 0 = xs.getD j 0 := by simp
      rw [this, ih]
      exact Nat.lt_of_succ_lt_succ h

/-- Writing back the element already at an index is the identity. -/
theorem set_getD_self {α : Type} (l : List α) (i : Nat) (d : α)
    (h : i < l.length) : l.set i (l.getD i d) = l := by
  induction l generalizing i with
  | nil => simp at h
  | cons x xs ih =>
    cases i with
    | zero => simp
    | succ j =>
      have h2 : j < xs.length := Nat.lt_of_succ_lt_succ h
      have : (x :: xs).getD (j + 1) d = xs.getD j d := by simp
      rw [this]
      show x :: xs.set j (xs.getD j d) = x :: xs
      rw [ih j h2]

theorem listInsert_length (l : List Nat) (i v : Nat) (h : i ≤ l.length) :
    (listInsert l i v).length = l.length + 1 := by
  simp [listInsert]
  omega

theorem listDel_length (l : List Nat) (i : Nat) (h : i < l.length) :
    (listDel l i).length = l.length - 1 := by
  simp [listDel]
  omega

/-- The element just appended is the last element, also after the
capacity-overflow drop. -/
theorem getLast?_dequeAppend (l : List UndoAction) (a : UndoAction) :
    (dequeAppend l a).getLast? = some a := by
  unfold dequeAppend
  simp only []
  split
  · rename_i h
    have hk : (l ++ [a]).length - 100 ≤ l.length := by
      simp only [List.length_append, List.length_singleton] at h ⊢
      omega
    rw [List.drop_append_of_le_length hk, List.getLast?_concat]
  · exact List.getLast?_concat l

/-- C1: `SearchEngine.replace_next` does not record a `ReplaceRange` action:
the action pushed is tagged `'replace'`, whose undo handler restores a
single byte, so undoing a multi-byte hex replacement corrupts the buffer.
Evaluated at the failing input `AA BB` with `replace_next("AABB", "CC")`:
the replacement succeeds, the logged action is `'replace'`, and undo leaves
the two-byte buffer as the single byte `AA`.  (The spec's own hex `"AA"`
example does hold for a single-byte replacement, as the last two conjuncts
show: `replace_all("AA", "BB")` makes 3 replacements and a full undo
restores the original five bytes.) -/
theorem C1_replace_next_records_plain_replace :
    c1step.1 = true ∧
    c1step.2.2.undo_stack.getLast?.map UndoAction.action_type = some "replace" ∧
    (undoB c1step.2.2).map (fun p => (p.1.data, p.2)) = some ([170], true) ∧
    bufAABB.data = [170, 187] ∧
    c1all.1 = 3 ∧
    ((((undoB c1all.2.2).bind fun p => undoB p.1).bind fun p => undoB p.1).map
      fun p => p.1.data) = some [170, 1, 170, 2, 170] := by
  refine ⟨rfl, rfl, rfl, rfl, rfl, rfl⟩

/-- C2 counterexample: delete at the cursor position `size - 1` clamps the
cursor during the mutation and undo does not restore it: on `[1, 2, 3]`
with cursor 2, `delete_byte 2` then `undo` restores the bytes but leaves
the cursor at 1, not 2. -/
theorem C2_counterexample :
    bufC2.cursor_pos = 2 ∧
    (undoB (delete_byte bufC2 2)).map (fun p => (p.1.data, p.1.cursor_pos, p.2)) =
      some ([1, 2, 3], 1, true) := by
  refine ⟨rfl, rfl⟩

/-- C3 counterexample: the cache bound fails.  Six `get_line` requests for
six distinct chunks past end-of-file each insert an empty cached chunk
through the early-return path of `_load_chunk` that skips the eviction
check, leaving 6 (> 5) resident entries. -/
theorem C3_counterexample :
    c3chain.map (fun b => b.loaded_chunks.length) = some 6 := by
  refine rfl

/-- C4: `SearchEngine.replace_next` pushes an action onto the undo log
directly but does not clear the redo log (unlike every `Buffer` mutator).
Evaluated at the failing input: insert a byte, undo it (redo log now
holds one action), then `replace_next('A', 'B')` succeeds and returns with
the redo log still non-empty. -/
theorem C4_replace_next_keeps_redo_log :
    (((insert_byte (mkBuf [65] 0) 0 66).bind fun x =>
        (undoB x).map fun p =>
          replace_next engine0 p.1 [65] [66] "text" false rspNone).map fun t =>
      (t.1, t.2.2.redo_stack.length, t.2.2.undo_stack.length)) =
      some (true, 1, 1) := by
  refine rfl

/-- C7 counterexample: a backslash is a regex metacharacter the wildcard
translation does not escape.  The pattern `"\d"` occurs literally in the
ASCII projection of the buffer bytes `5C 64` (`"\d"`), yet `find_wildcard`
finds no match, because the untranslated backslash turns the pattern into
the digit class `\d`. -/
theorem C7_counterexample :
    listFind (asciiProj [92, 100]) [92, 100] 0 = some 0 ∧
    find_wildcard (mkBuf [92, 100] 0) [92, 100] 0 = none := by
  refine ⟨rfl, rfl⟩

/-- C8 counterexample: `insert_byte` at an out-of-range position is not
ignored: on the 1-byte buffer `[65]`, `insert_byte 5 66` clamps the
position and appends the byte, setting the modified flag and recording an
undo action. -/
theorem C8_counterexample :
    (insert_byte (mkBuf [65] 0) 5 66).map
      (fun x => (x.data, x.modified, x.undo_stack.length)) =
      some ([65, 66], true, 1) := by
  refine rfl

theorem mem_chunkKeys_iff (cs : List (Nat × List Nat)) (k : Nat) :
    k ∈ chunkKeys cs ↔ (cs.find? fun p => p.1 == k).isSome := by
  rw [List.find?_isSome, chunkKeys]
  simp [List.mem_map]

theorem insertChunk_length_of_mem (cs : List (Nat × List Nat)) (k : Nat)
    (v : List Nat) (h : k ∈ chunkKeys cs) :
    (insertChunk cs k v).length = cs.length := by
  unfold insertChunk
  rw [if_pos ((mem_chunkKeys_iff cs k).mp h)]
  simp

theorem insertChunk_length_of_not_mem (cs : List (Nat × List Nat)) (k : Nat)
    (v : List Nat) (h : k ∉ chunkKeys cs) :
    (insertChunk cs k v).length = cs.length + 1 := by
  unfold insertChunk
  rw [if_neg (by simpa using (mem_chunkKeys_iff cs k).not.mp h)]
  simp

theorem chunkKeys_insertChunk_of_not_mem (cs : List (Nat × List Nat)) (k : Nat)
    (v : List Nat) (h : k ∉ chunkKeys cs) :
    chunkKeys (insertChunk cs k v) = chunkKeys cs ++ [k] := by
  unfold insertChunk
  rw [if_neg (by simpa using (mem_chunkKeys_iff cs k).not.mp h)]
  simp [chunkKeys]

theorem mem_chunkKeys_insertChunk (cs : List (Nat × List Nat)) (k : Nat)
    (v : List Nat) : k ∈ chunkKeys (insertChunk cs k v) := by
  unfold insertChunk
  by_cases h : (cs.find? fun p => p.1 == k).isSome
  · rw [if_pos h]
    obtain ⟨p, hp, hk⟩ := List.find?_isSome.mp h
    have hmem := List.mem_map_of_mem (fun q => if q.1 == k then (k, v) else q) hp
    simp only [hk, if_true] at hmem
    exact List.mem_map.mpr ⟨(k, v), hmem, rfl⟩
  · rw [if_neg h]
    simp [chunkKeys]

/-- Removing one present key from a key-nodup association list drops its
length by exactly one. -/
theorem filter_out_key_length (cs : List (Nat × List Nat)) (m : Nat)
    (hnd : (chunkKeys cs).Nodup) (hm : m ∈ chunkKeys cs) :
    (cs.filter fun p => !(p.1 == m)).length = cs.length - 1 := by
  induction cs with
  | nil => simp [chunkKeys] at hm
  | cons p cs ih =>
    simp only [chunkKeys, List.map_cons, List.nodup_cons] at hnd
    by_cases hp : p.1 = m
    · have hrest : ∀ q ∈ cs, (!(q.1 == m)) = true := by
        intro q hq
        simp only [Bool.not_eq_true', beq_eq_false_iff_ne, ne_eq]
        intro hqm
        apply hnd.1
        rw [hp, ← hqm]
        exact List.mem_map_of_mem _ hq
      rw [List.filter_cons]
      have hcond : (!(p.1 == m)) = false := by simp [hp]
      rw [hcond]
      simp only [Bool.false_eq_true, if_false]
      rw [List.filter_eq_self.mpr hrest]
      simp
    · have hm2 : m ∈ chunkKeys cs := by
        rw [chunkKeys, List.map_cons] at hm
        rcases List.mem_cons.mp hm with h | h
        · exact absurd h.symm hp
        · exact h
      have hlen : 1 ≤ cs.length := by
        rcases List.mem_map.mp hm2 with ⟨q, hq, _⟩
        exact List.length_pos.mpr (List.ne_nil_of_mem hq)
      have hrec := ih hnd.2 hm2
      rw [List.filter_cons]
      have hcond : (!(p.1 == m)) = true := by simp [hp]
      rw [hcond]
      simp only [if_true, List.length_cons, hrec]
      omega

theorem insertChunk_eq_append (cs : List (Nat × List Nat)) (k : Nat)
    (v : List Nat) (h : k ∉ chunkKeys cs) :
    insertChunk cs k v = cs ++ [(k, v)] := by
  unfold insertChunk
  rw [if_neg (by simpa using (mem_chunkKeys_iff cs k).not.mp h)]

/-- C3 (amended): the 5-entry bound on the chunk cache holds only for the
ordinary eviction path: when the cache is key-unique with at most 5
resident entries and `_load_chunk` is asked for an in-file chunk whose
index is larger than some cached index, then after the load the cache
again holds at most 5 entries (the numerically smallest index having been
evicted if the bound was exceeded) and the requested chunk is resident.
When the requested index is not above the smallest cached index nothing is
evicted, and a request past end-of-file skips the eviction check entirely,
so in those cases the cache can exceed 5 entries (see the
counterexample). -/
theorem C3_amended (b : Buffer) (fm : Nat → Nat) (idx : Nat)
    (hfm : b.file_map = some fm)
    (hnd : (chunkKeys b.loaded_chunks).Nodup)
    (h5 : b.loaded_chunks.length ≤ 5)
    (hin : idx * CHUNK_SIZE < b.file_size)
    (hgt : ∃ k ∈ chunkKeys b.loaded_chunks, k < idx) :
    (load_chunk b idx).loaded_chunks.length ≤ 5 ∧
    idx ∈ chunkKeys (load_chunk b idx).loaded_chunks := by
  unfold load_chunk
  rw [hfm]
  simp only [if_neg (Nat.not_le.mpr hin)]
  by_cases hidx : idx ∈ chunkKeys b.loaded_chunks
  · have hlen := insertChunk_length_of_mem b.loaded_chunks idx
      ((List.range (min (idx * CHUNK_SIZE + CHUNK_SIZE) b.file_size - idx * CHUNK_SIZE)).map
        fun j => fm (idx * CHUNK_SIZE + j)) hidx
    rw [if_neg (by omega)]
    exact ⟨le_of_eq_of_le hlen h5, mem_chunkKeys_insertChunk _ _ _⟩
  · have hlen := insertChunk_length_of_not_mem b.loaded_chunks idx
      ((List.range (min (idx * CHUNK_SIZE + CHUNK_SIZE) b.file_size - idx * CHUNK_SIZE)).map
        fun j => fm (idx * CHUNK_SIZE + j)) hidx
    have hkeys := chunkKeys_insertChunk_of_not_mem b.loaded_chunks idx
      ((List.range (min (idx * CHUNK_SIZE + CHUNK_SIZE) b.file_size - idx * CHUNK_SIZE)).map
        fun j => fm (idx * CHUNK_SIZE + j)) hidx
    have happ := insertChunk_eq_append b.loaded_chunks idx
      ((List.range (min (idx * CHUNK_SIZE + CHUNK_SIZE) b.file_size - idx * CHUNK_SIZE)).map
        fun j => fm (idx * CHUNK_SIZE + j)) hidx
    by_cases hbig :
      (insertChunk b.loaded_chunks idx
        ((List.range (min (idx * CHUNK_SIZE + CHUNK_SIZE) b.file_size - idx * CHUNK_SIZE)).map
          fun j => fm (idx * CHUNK_SIZE + j))).length > 5
    · rw [if_pos hbig]
      obtain ⟨k0, hk0mem, hk0lt⟩ := hgt
      obtain ⟨m, hm⟩ : ∃ m,
          (chunkKeys (insertChunk b.loaded_chunks idx
            ((List.range (min (idx * CHUNK_SIZE + CHUNK_SIZE) b.file_size - idx * CHUNK_SIZE)).map
              fun j => fm (idx * CHUNK_SIZE + j)))).min? = some m := by
        match h : (chunkKeys (insertChunk b.loaded_chunks idx
            ((List.range (min (idx * CHUNK_SIZE + CHUNK_SIZE) b.file_size - idx * CHUNK_SIZE)).map
              fun j => fm (idx * CHUNK_SIZE + j)))).min? with
        | none =>
          rw [List.min?_eq_none_iff, hkeys] at h
          simp at h
        | some m => exact ⟨m, rfl⟩
      have hmm := (List.min?_eq_some_iff (fun a => Nat.le_refl a)
        (fun a b => min_choice a b) (fun a b c => Nat.le_min)).mp hm
      have hmlt : m < idx := by
        refine lt_of_le_of_lt (hmm.2 k0 ?_) hk0lt
        rw [hkeys]
        exact List.mem_append_left _ hk0mem
      have hmne : m ≠ idx := Nat.ne_of_lt hmlt
      rw [hm]
      simp only [Option.getD_some]
      rw [if_pos hmne]
      have hnd1 : (chunkKeys (insertChunk b.loaded_chunks idx
          ((List.range (min (idx * CHUNK_SIZE + CHUNK_SIZE) b.file_size - idx * CHUNK_SIZE)).map
            fun j => fm (idx * CHUNK_SIZE + j)))).Nodup := by
        rw [hkeys]
        simp only [List.nodup_append, List.nodup_cons, List.not_mem_nil,
          not_false_iff, List.nodup_nil, and_true, true_and]
        constructor
        · exact hnd
        · intro a ha hmem
          rcases List.mem_singleton.mp hmem with rfl
          exact hidx ha
      have hcount := filter_out_key_length _ m hnd1 hmm.1
      constructor
      · exact le_of_eq_of_le hcount (by omega)
      · have hentry : (idx,
            (List.range (min (idx * CHUNK_SIZE + CHUNK_SIZE) b.file_size - idx * CHUNK_SIZE)).map
              fun j => fm (idx * CHUNK_SIZE + j)) ∈
            insertChunk b.loaded_chunks idx
              ((List.range (min (idx * CHUNK_SIZE + CHUNK_SIZE) b.file_size - idx * CHUNK_SIZE)).map
                fun j => fm (idx * CHUNK_SIZE + j)) := by
          rw [happ]
          exact List.mem_append_right _ (List.mem_singleton.mpr rfl)
        refine List.mem_map.mpr ⟨_, List.mem_filter.mpr ⟨hentry, ?_⟩, rfl⟩
        simp only [Bool.not_eq_true', beq_eq_false_iff_ne, ne_eq]
        exact fun hc => hmne hc.symm
    · rw [if_neg hbig]
      exact ⟨Nat.not_lt.mp hbig, mem_chunkKeys_insertChunk _ _ _⟩

/-- C3 witness: loading the in-file chunk 5 into the full cache keeps the
bound and leaves chunk 5 resident. -/
theorem C3_witness :
    (load_chunk c3wb 5).loaded_chunks.length ≤ 5 ∧
    5 ∈ chunkKeys (load_chunk c3wb 5).loaded_chunks :=
  C3_amended c3wb (fun _ => 7) 5 rfl (by decide) (by decide) (by decide)
    ⟨0, by decide, by decide⟩

/-- `_load_chunk` only rewrites the chunk cache. -/
theorem load_chunk_preserves (b : Buffer) (i : Nat) :
    (load_chunk b i).undo_stack = b.undo_stack ∧
    (load_chunk b i).redo_stack = b.redo_stack ∧
    (load_chunk b i).modified = b.modified ∧
    (load_chunk b i).cursor_pos = b.cursor_pos := by
  unfold load_chunk
  rcases b.file_map with _ | fm <;> simp
  split
  · simp
  · split
    · split <;> simp
    · simp

/-- `_load_text_chunk` only rewrites `code_lines`. -/
theorem load_text_chunk_preserves (b : Buffer) (i : Nat) :
    (load_text_chunk b i).undo_stack = b.undo_stack ∧
    (load_text_chunk b i).redo_stack = b.redo_stack ∧
    (load_text_chunk b i).modified = b.modified ∧
    (load_text_chunk b i).cursor_pos = b.cursor_pos := by
  unfold load_text_chunk
  rcases b.file_map with _ | fm <;> simp
  split
  · simp
  · split <;> simp

/-- `_detect_file_type` never touches the undo/redo logs, the modified
flag, or the byte cursor. -/
theorem detect_file_type_preserves (b : Buffer) (sample : List Nat)
    (lang : Option String) :
    (detect_file_type b sample lang).undo_stack = b.undo_stack ∧
    (detect_file_type b sample lang).redo_stack = b.redo_stack ∧
    (detect_file_type b sample lang).modified = b.modified ∧
    (detect_file_type b sample lang).cursor_pos = b.cursor_pos := by
  unfold detect_file_type
  split
  · simp
  · rcases b.filename with _ | f <;> simp
    rcases lang with _ | l <;> simp
    split
    · exact load_text_chunk_preserves _ 0
    · simp

/-- C8 (amended): at an out-of-range position with a valid byte value,
`delete_byte` and `replace_byte` are silently ignored (the whole buffer
state is returned unchanged, no action recorded), but `insert_byte` clamps
the position into `[0, size]` and performs the insertion at the end,
recording an `'insert'` action, setting the modified flag, and clearing
the redo log. -/
theorem C8_amended :
    (∀ (b : Buffer) (pos : Nat), b.data.length ≤ pos → delete_byte b pos = b) ∧
    (∀ (b : Buffer) (pos v : Nat), v ≤ 255 → b.data.length ≤ pos →
      replace_byte b pos v = some b) ∧
    (∀ (b : Buffer) (pos v : Nat), v ≤ 255 → b.data.length < pos →
      ∃ b1, insert_byte b pos v = some b1 ∧ b1.data = b.data ++ [v] ∧
        b1.modified = true ∧ b1.redo_stack = [] ∧
        b1.undo_stack.getLast? =
          some (.mk b.data.length [] [v] "insert" [])) := by
  refine ⟨fun b pos h => ?_, fun b pos v hv h => ?_, fun b pos v hv h => ?_⟩
  · simp [delete_byte, Nat.not_lt.mpr h]
  · have hv' : ¬ (v > 255) := by omega
    simp [replace_byte, hv', Nat.not_lt.mpr h]
  · have hv' : ¬ (v > 255) := by omega
    have hmin : min pos b.data.length = b.data.length :=
      Nat.min_eq_right (Nat.le_of_lt h)
    simp only [insert_byte, if_neg hv']
    refine ⟨_, rfl, ?_, rfl, rfl, ?_⟩
    · simp only [hmin, listInsert, List.take_length, List.drop_length]
    · simp only [hmin]
      exact getLast?_dequeAppend _ _

/-- C8 witness: the amended behaviour evaluated on the 1-byte buffer
`[65]` at the out-of-range position 3. -/
theorem C8_witness :
    delete_byte (mkBuf [65] 0) 3 = mkBuf [65] 0 ∧
    replace_byte (mkBuf [65] 0) 3 66 = some (mkBuf [65] 0) ∧
    ∃ b1, insert_byte (mkBuf [65] 0) 3 66 = some b1 ∧ b1.data = [65, 66] ∧
      b1.modified = true ∧ b1.redo_stack = [] ∧
      b1.undo_stack.getLast? = some (.mk 1 [] [66] "insert" []) :=
  ⟨C8_amended.1 (mkBuf [65] 0) 3 (by decide),
   C8_amended.2.1 (mkBuf [65] 0) 3 66 (by decide) (by decide),
   C8_amended.2.2 (mkBuf [65] 0) 3 66 (by decide) (by decide)⟩

/-- C2 (amended): for a resident binary buffer, every successful
single-byte mutation followed by `undo` restores the byte content exactly
and reports `True`, unconditionally; the cursor after the undo equals the
pre-mutation cursor whenever that cursor sat strictly inside the data (for
`delete_byte`: strictly before `size - 1`), and otherwise ends clamped: to
the end of the restored data (`size - 1`) for `insert_byte` and
`replace_byte`, and to the end of the shrunk data (`size - 2`) for
`delete_byte`, whose own clamp fires against the shortened buffer and is
not undone. -/
theorem C2_amended :
    (∀ (b : Buffer) (pos v : Nat), b.is_code_file = false → v ≤ 255 →
      (((insert_byte b pos v).bind undoB).map
        fun p => (p.1.data, p.1.cursor_pos, p.2)) =
        some (b.data,
          if b.data.length ≤ b.cursor_pos then b.data.length - 1 else b.cursor_pos,
          true)) ∧
    (∀ (b : Buffer) (pos : Nat), b.is_code_file = false → pos < b.data.length →
      ((undoB (delete_byte b pos)).map
        fun p => (p.1.data, p.1.cursor_pos, p.2)) =
        some (b.data,
          if b.data.length - 1 ≤ b.cursor_pos then b.data.length - 2 else b.cursor_pos,
          true)) ∧
    (∀ (b : Buffer) (pos v : Nat), b.is_code_file = false → v ≤ 255 →
      pos < b.data.length → b.data.getD pos 0 ≠ v →
      (((replace_byte b pos v).bind undoB).map
        fun p => (p.1.data, p.1.cursor_pos, p.2)) =
        some (b.data,
          if b.data.length ≤ b.cursor_pos then b.data.length - 1 else b.cursor_pos,
          true)) := by
  refine ⟨fun b pos v hcode hv => ?_, fun b pos hcode hpos => ?_,
    fun b pos v hcode hv hpos hne => ?_⟩
  · have hv' : ¬ (v > 255) := by omega
    have hple : min pos b.data.length ≤ b.data.length := Nat.min_le_right _ _
    simp only [insert_byte, if_neg hv', Option.some_bind]
    unfold undoB
    simp only [getLast?_dequeAppend]
    unfold undoApply
    simp only [UndoAction.action_type, UndoAction.position]
    rw [listInsert_length b.data _ v hple]
    have hlt : min pos b.data.length < b.data.length + 1 := by omega
    simp only [if_pos hlt, if_neg (by decide : ¬ ("insert" = "batch_replace")),
      if_pos rfl, Option.map_some]
    rw [listDel_listInsert b.data _ v hple]
    unfold clampCursor
    by_cases hc : b.data.length ≤ b.cursor_pos
    · simp [hcode, hc]
    · simp [hcode, hc]
  · have hcl : ¬ (b.data.length ≤ pos) := Nat.not_le.mpr hpos
    simp only [delete_byte, if_pos hpos]
    unfold undoB
    simp only [getLast?_dequeAppend]
    unfold undoApply
    simp only [UndoAction.action_type, UndoAction.position, UndoAction.old_data]
    simp only [if_neg (by decide : ¬ ("delete" = "batch_replace")),
      if_neg (by decide : ¬ ("delete" = "insert")), if_pos rfl,
      eq_self_iff_true, if_true,
      if_neg (show ¬ ([b.data.getD pos 0] = []) from by simp),
      List.headD_cons, Option.map_some]
    rw [listInsert_listDel b.data pos hpos]
    unfold clampCursor
    rw [listDel_length b.data pos hpos]
    by_cases hc : b.data.length - 1 ≤ b.cursor_pos
    · have h2 : ¬ (b.data.length ≤ b.data.length - 2) := by omega
      have h3 : b.data.length - 1 - 1 = b.data.length - 2 := by omega
      simp [hcode, hc, h2, h3]
    · have h2 : ¬ (b.data.length ≤ b.cursor_pos) := by omega
      simp [hcode, hc, h2]
  · have hv' : ¬ (v > 255) := by omega
    have hne' : ¬ (b.data.getD pos 0 = v) := hne
    simp only [replace_byte, if_neg hv', if_pos hpos, if_neg hne', Option.some_bind]
    unfold undoB
    simp only [getLast?_dequeAppend]
    unfold undoApply
    simp only [UndoAction.action_type, UndoAction.position, UndoAction.old_data]
    have hset : pos < (b.data.set pos v).length := by simp [hpos]
    simp only [if_neg (by decide : ¬ ("replace" = "batch_replace")),
      if_neg (by decide : ¬ ("replace" = "insert")),
      if_neg (by decide : ¬ ("replace" = "delete")), if_pos rfl,
      eq_self_iff_true, if_true,
      if_neg (show ¬ ([b.data.getD pos 0] = []) from by simp),
      List.headD_cons, if_pos hset, Option.map_some]
    rw [List.set_set, set_getD_self b.data pos 0 hpos]
    unfold clampCursor
    by_cases hc : b.data.length ≤ b.cursor_pos
    · simp [hcode, hc]
    · simp [hcode, hc]

/-- C2 witness: the amended round trips evaluated on `[1, 2, 3]`: insert
and replace with the cursor at 0 (restored), delete at position 1 with the
cursor at 2 (ends clamped to 1, the end of the shrunk data). -/
theorem C2_witness :
    (((insert_byte (mkBuf [1, 2, 3] 0) 1 7).bind undoB).map
      fun p => (p.1.data, p.1.cursor_pos, p.2)) = some ([1, 2, 3], 0, true) ∧
    ((undoB (delete_byte (mkBuf [1, 2, 3] 2) 1)).map
      fun p => (p.1.data, p.1.cursor_pos, p.2)) = some ([1, 2, 3], 1, true) ∧
    (((replace_byte (mkBuf [1, 2, 3] 0) 1 7).bind undoB).map
      fun p => (p.1.data, p.1.cursor_pos, p.2)) = some ([1, 2, 3], 0, true) :=
  ⟨C2_amended.1 (mkBuf [1, 2, 3] 0) 1 7 rfl (by decide),
   C2_amended.2.1 (mkBuf [1, 2, 3] 2) 1 rfl (by decide),
   C2_amended.2.2 (mkBuf [1, 2, 3] 0) 1 7 rfl (by decide) (by decide) (by decide)⟩

theorem listFind_spec (l needle : List Nat) (start pos : Nat)
    (h : listFind l needle start = some pos) :
    start ≤ pos ∧ pos + needle.length ≤ l.length := by
  unfold listFind at h
  have hp := List.find?_some h
  simp only [Bool.and_eq_true, decide_eq_true_eq] at hp
  exact ⟨hp.1.1, hp.1.2⟩

theorem asciiProj_length (d : List Nat) : (asciiProj d).length = d.length := by
  simp [asciiProj]

theorem find_hex_spec (b : Buffer) (pattern : List Nat) (sp : Nat)
    (r : SearchResult) (h : find_hex b pattern sp = some r) :
    sp ≤ r.position ∧ r.position + r.length ≤ b.data.length := by
  unfold find_hex at h
  split at h
  · exact Option.noConfusion h
  · rename_i hb hp
    split at h
    · rename_i pos hf
      obtain rfl : (⟨pos, hb.length, hb⟩ : SearchResult) = r := by
        simpa using h
      exact listFind_spec b.data hb sp pos hf
    · exact Option.noConfusion h

theorem find_text_spec (b : Buffer) (text : List Nat) (cs : Bool) (sp : Nat)
    (r : SearchResult) (h : find_text b text cs sp = some r) :
    sp ≤ r.position ∧ r.position + r.length ≤ b.data.length := by
  unfold find_text at h
  by_cases hcs : cs = true
  · rw [if_pos hcs] at h
    cases hf : listFind (asciiProj b.data) text sp with
    | none => rw [hf] at h; exact Option.noConfusion h
    | some pos =>
      rw [hf] at h
      obtain rfl : (⟨pos, text.length, sliceGet b.data pos (pos + text.length)⟩ :
          SearchResult) = r := Option.some.inj h
      have := listFind_spec (asciiProj b.data) text sp pos hf
      rw [asciiProj_length] at this
      exact this
  · rw [if_neg hcs] at h
    cases hf : listFind ((asciiProj b.data).map lowerAscii) (text.map lowerAscii) sp with
    | none => rw [hf] at h; exact Option.noConfusion h
    | some pos =>
      rw [hf] at h
      obtain rfl : (⟨pos, text.length, sliceGet b.data pos (pos + text.length)⟩ :
          SearchResult) = r := Option.some.inj h
      have := listFind_spec ((asciiProj b.data).map lowerAscii) (text.map lowerAscii) sp pos hf
      rw [List.length_map, List.length_map, asciiProj_length] at this
      exact this

theorem matchHereF_le (fuel : Nat) :
    ∀ (atoms : List (RAtom × Bool)) (s : List Nat) (k : Nat),
      matchHereF fuel atoms s = some k → k ≤ s.length := by
  induction fuel with
  | zero => intro atoms s k h; exact absurd h (by simp [matchHereF])
  | succ fuel ih =>
    intro atoms s k h
    match atoms, s with
    | [], _ =>
      simp only [matchHereF, Option.some.injEq] at h
      omega
    | (a, false) :: rest, [] => exact absurd h (by simp [matchHereF])
    | (a, false) :: rest, c :: s2 =>
      rw [matchHereF] at h
      by_cases hm : atomMatch a c = true
      · rw [if_pos hm] at h
        cases h2 : matchHereF fuel rest s2 with
        | none => rw [h2] at h; exact absurd h (by simp)
        | some k2 =>
          rw [h2] at h
          have h3 : k2 + 1 = k := Option.some.inj h
          have := ih rest s2 k2 h2
          simp only [List.length_cons]
          omega
      · rw [if_neg hm] at h
        exact absurd h (by simp)
    | (a, true) :: rest, [] =>
      rw [matchHereF] at h
      exact ih rest [] k h
    | (a, true) :: rest, c :: s2 =>
      rw [matchHereF] at h
      by_cases hm : atomMatch a c = true
      · rw [if_pos hm] at h
        cases h2 : matchHereF fuel ((a, true) :: rest) s2 with
        | none =>
          rw [h2] at h
          have := ih rest (c :: s2) k h
          exact this
        | some k2 =>
          rw [h2] at h
          simp only [Option.some.injEq] at h
          have := ih ((a, true) :: rest) s2 k2 h2
          simp only [List.length_cons]
          omega
      · rw [if_neg hm] at h
        exact ih rest (c :: s2) k h

theorem matchHere_le (atoms : List (RAtom × Bool)) (s : List Nat) (k : Nat)
    (h : matchHere atoms s = some k) : k ≤ s.length :=
  matchHereF_le _ atoms s k h

theorem regexSearchAux_spec (atoms : List (RAtom × Bool)) (s : List Nat) :
    ∀ (fuel i st en : Nat), i + fuel ≤ s.length + 1 →
      regexSearchAux atoms s i fuel = some (st, en) →
      i ≤ st ∧ st ≤ en ∧ en ≤ s.length := by
  intro fuel
  induction fuel with
  | zero => intro i st en hinv h; exact absurd h (by simp [regexSearchAux])
  | succ fuel ih =>
    intro i st en hinv h
    rw [regexSearchAux] at h
    cases hm : matchHere atoms (s.drop i) with
    | some k =>
      rw [hm] at h
      simp only [Option.some.injEq, Prod.mk.injEq] at h
      obtain ⟨rfl, rfl⟩ := h
      have hk := matchHere_le atoms (s.drop i) k hm
      rw [List.length_drop] at hk
      omega
    | none =>
      rw [hm] at h
      have := ih (i + 1) st en (by omega) h
      omega

theorem regexSearch_spec (atoms : List (RAtom × Bool)) (s : List Nat)
    (start st en : Nat) (h : regexSearch atoms s start = some (st, en)) :
    start ≤ st ∧ st ≤ en ∧ en ≤ s.length := by
  unfold regexSearch at h
  by_cases hs : start ≤ s.length
  · rw [if_pos hs] at h
    exact regexSearchAux_spec atoms s (s.length + 1 - start) start st en (by omega) h
  · rw [if_neg hs] at h
    exact absurd h (by simp)

theorem find_wildcard_spec (b : Buffer) (pattern : List Nat) (sp : Nat)
    (r : SearchResult) (h : find_wildcard b pattern sp = some r) :
    sp ≤ r.position ∧ r.position + r.length ≤ b.data.length := by
  unfold find_wildcard at h
  by_cases hp : pattern = []
  · rw [if_pos hp] at h; exact Option.noConfusion h
  · rw [if_neg hp] at h
    split at h
    · exact Option.noConfusion h
    · rename_i atoms hc
      split at h
      · rename_i se s e hs
        obtain rfl : (⟨s, e - s, sliceGet b.data s e⟩ : SearchResult) = r := by
          simpa using h
        have := regexSearch_spec atoms (asciiProj b.data) sp s e hs
        rw [asciiProj_length] at this
        exact ⟨this.1, by simp only []; omega⟩
      · exact Option.noConfusion h

theorem find_regex_spec (b : Buffer)
    (rsp : List Nat → Nat → Option (Nat × Nat))
    (hr : ∀ s pos a z, rsp s pos = some (a, z) → pos ≤ a ∧ a ≤ z ∧ z ≤ s.length)
    (sp : Nat) (r : SearchResult) (h : find_regex b rsp sp = some r) :
    sp ≤ r.position ∧ r.position + r.length ≤ b.data.length := by
  unfold find_regex at h
  split at h
  · rename_i se s e hs
    obtain rfl : (⟨s, e - s, sliceGet b.data s e⟩ : SearchResult) = r := by
      simpa using h
    have := hr (asciiProj b.data) sp s e hs
    rw [asciiProj_length] at this
    exact ⟨this.1, by simp only []; omega⟩
  · exact Option.noConfusion h

theorem findAllLoop_spec (f : Nat → Option SearchResult) (dataLen : Nat)
    (hf : ∀ pos r, f pos = some r →
      pos ≤ r.position ∧ r.position + r.length ≤ dataLen) :
    ∀ (fuel pos : Nat),
      List.Pairwise (fun a b => a.position < b.position) (findAllLoop f dataLen fuel pos) ∧
      ∀ r ∈ findAllLoop f dataLen fuel pos,
        pos ≤ r.position ∧ r.position + r.length ≤ dataLen := by
  intro fuel
  induction fuel with
  | zero => intro pos; simp [findAllLoop]
  | succ fuel ih =>
    intro pos
    cases hp : f pos with
    | none => simp [findAllLoop, hp]
    | some r =>
      have hr := hf pos r hp
      by_cases hend : r.position + 1 ≥ dataLen
      · simp only [findAllLoop, hp, if_pos hend]
        simp [hr]
      · simp only [findAllLoop, hp, if_neg hend]
        have htail := ih (r.position + 1)
        constructor
        · rw [List.pairwise_cons]
          refine ⟨fun x hx => ?_, htail.1⟩
          have := (htail.2 x hx).1
          omega
        · intro x hx
          rcases List.mem_cons.mp hx with rfl | hx2
          · exact hr
          · have := htail.2 x hx2
            constructor
            · omega
            · exact this.2

/-- C6: for every buffer, non-empty pattern, and search mode — with the
external `re` engine assumed to honour its interface (a reported span lies
at or after the requested start and inside the searched string) — the
results of `find_all` are strictly ascending in `position` and each
result's `[position, position + length)` lies within the buffer data. -/
theorem C6_find_all_sorted_in_bounds (eng : SearchEngine) (b : Buffer)
    (pattern : List Nat) (st : String) (cs : Bool)
    (rsp : List Nat → Nat → Option (Nat × Nat))
    (hr : ∀ s pos a z, rsp s pos = some (a, z) → pos ≤ a ∧ a ≤ z ∧ z ≤ s.length) :
    List.Pairwise (fun r1 r2 => r1.position < r2.position)
      (find_all eng b pattern st cs rsp).1 ∧
    ∀ r ∈ (find_all eng b pattern st cs rsp).1,
      r.position + r.length ≤ b.data.length := by
  unfold find_all
  by_cases hp : pattern = []
  · rw [if_pos hp]
    simp
  · rw [if_neg hp]
    have hspec := findAllLoop_spec
      (fun pos =>
        if st = "hex" then find_hex b pattern pos
        else if st = "regex" then find_regex b rsp pos
        else if st = "wildcard" then find_wildcard b pattern pos
        else find_text b pattern cs pos)
      b.data.length
      (fun pos r h => by
        simp only [] at h
        by_cases h1 : st = "hex"
        · rw [if_pos h1] at h
          exact find_hex_spec b pattern pos r h
        · rw [if_neg h1] at h
          by_cases h2 : st = "regex"
          · rw [if_pos h2] at h
            exact find_regex_spec b rsp hr pos r h
          · rw [if_neg h2] at h
            by_cases h3 : st = "wildcard"
            · rw [if_pos h3] at h
              exact find_wildcard_spec b pattern pos r h
            · rw [if_neg h3] at h
              exact find_text_spec b pattern cs pos r h)
      (b.data.length + 2) 0
    exact ⟨hspec.1, fun r hrr => (hspec.2 r hrr).2⟩

/-- C6 witness: the property instantiated on the buffer `"ABA"` with the
text pattern `"A"` (and the never-matching stand-in regex engine). -/
theorem C6_witness :
    List.Pairwise (fun r1 r2 => r1.position < r2.position)
      (find_all engine0 (mkBuf [65, 66, 65] 0) [65] "text" true rspNone).1 ∧
    ∀ r ∈ (find_all engine0 (mkBuf [65, 66, 65] 0) [65] "text" true rspNone).1,
      r.position + r.length ≤ (mkBuf [65, 66, 65] 0).data.length :=
  C6_find_all_sorted_in_bounds engine0 (mkBuf [65, 66, 65] 0) [65] "text" true
    rspNone (fun _ _ _ _ h => Option.noConfusion h)

/-- C9: after every `load_file` the undo and redo logs are empty, the
modified flag is cleared, and the byte cursor is at offset 0, whatever the
buffer held before. -/
theorem C9_load_file_resets_history (b : Buffer) (fname : String)
    (contents : List Nat) (lang : Option String) :
    (load_file b fname contents lang).undo_stack = [] ∧
    (load_file b fname contents lang).redo_stack = [] ∧
    (load_file b fname contents lang).modified = false ∧
    (load_file b fname contents lang).cursor_pos = 0 := by
  unfold load_file
  split
  · have h1 := load_chunk_preserves
      { b with
        filename := some fname, modified := false, cursor_pos := 0
        undo_stack := ([] : List UndoAction), redo_stack := ([] : List UndoAction)
        file_size := contents.length, is_large_file := true
        file_map := some fun i => contents.getD i 0 } 0
    have h2 := detect_file_type_preserves (b := load_chunk
      { b with
        filename := some fname, modified := false, cursor_pos := 0
        undo_stack := ([] : List UndoAction), redo_stack := ([] : List UndoAction)
        file_size := contents.length, is_large_file := true
        file_map := some fun i => contents.getD i 0 } 0)
    simp_all
  · have h2 := detect_file_type_preserves (b :=
      { b with
        filename := some fname, modified := false, cursor_pos := 0
        undo_stack := ([] : List UndoAction), redo_stack := ([] : List UndoAction)
        file_size := contents.length, is_large_file := false, data := contents })
    simp_all

theorem clampCursor_undo_stack (b : Buffer) :
    (clampCursor b).undo_stack = b.undo_stack := by
  unfold clampCursor
  split <;> rfl

theorem clampCursor_of_lt (b : Buffer) (h : b.cursor_pos < b.data.length) :
    clampCursor b = b := by
  unfold clampCursor
  rw [if_neg]
  intro hc
  exact Nat.not_le.mpr h hc.2

theorem clampCursor_of_code (b : Buffer) (h : b.is_code_file = true) :
    clampCursor b = b := by
  unfold clampCursor
  rw [if_neg]
  intro hc
  rw [h] at hc
  exact Bool.noConfusion hc.1

theorem clampCursor_of_ge (b : Buffer) (h1 : b.is_code_file = false)
    (h2 : b.cursor_pos ≥ b.data.length) :
    clampCursor b = { b with cursor_pos := b.data.length - 1 } := by
  unfold clampCursor
  rw [if_pos ⟨h1, h2⟩]

/-- C7 (amended): `find_wildcard` translates `*` to "zero or more of any
character" and `?` to "exactly one character", and escapes exactly the
eleven metacharacters dot, plus, parentheses, square brackets, curly
braces, caret, dollar and pipe (`wildcardMeta`) so each matches only
itself literally; a backslash in the pattern is passed through unescaped
and keeps its regex meaning (so pattern backslash-d matches a digit, not
the literal characters).  In particular `"h?llo"` matches `"hello"` and
`"hallo"` but not `"hxxllo"`. -/
theorem C7_amended :
    (∀ c ∈ wildcardMeta,
      find_wildcard (mkBuf [c] 0) [c] 0 = some ⟨0, 1, [c]⟩ ∧
      ∀ d, d < 127 → 32 ≤ d → d ≠ c →
        find_wildcard (mkBuf [d] 0) [c] 0 = none) ∧
    find_wildcard (mkBuf [104, 101, 108, 108, 111] 0) [104, 63, 108, 108, 111] 0 =
      some ⟨0, 5, [104, 101, 108, 108, 111]⟩ ∧
    find_wildcard (mkBuf [104, 97, 108, 108, 111] 0) [104, 63, 108, 108, 111] 0 =
      some ⟨0, 5, [104, 97, 108, 108, 111]⟩ ∧
    find_wildcard (mkBuf [104, 120, 120, 108, 108, 111] 0)
      [104, 63, 108, 108, 111] 0 = none ∧
    find_wildcard (mkBuf [104, 101, 121, 111] 0) [104, 42, 111] 0 =
      some ⟨0, 4, [104, 101, 121, 111]⟩ ∧
    find_wildcard (mkBuf [104, 111] 0) [104, 42, 111] 0 =
      some ⟨0, 2, [104, 111]⟩ ∧
    find_wildcard (mkBuf [53] 0) [92, 100] 0 = some ⟨0, 1, [53]⟩ := by
  refine ⟨?_, rfl, rfl, rfl, rfl, rfl, rfl⟩
  decide

/-- C7 witness: the escaped-metacharacter clause instantiated at `.`
(code 46): the pattern `"."` matches the byte `.` and does not match the
letter `x` (code 120). -/
theorem C7_witness :
    find_wildcard (mkBuf [46] 0) [46] 0 = some ⟨0, 1, [46]⟩ ∧
    find_wildcard (mkBuf [120] 0) [46] 0 = none :=
  ⟨(C7_amended.1 46 (by decide)).1,
   (C7_amended.1 46 (by decide)).2 120 (by decide) (by decide) (by decide)⟩

/-- C10: an empty pattern makes `find_next` return nothing and `find_all`
return the empty list, with the engine state (including `last_search`) and
the buffer untouched (neither function writes the buffer at all). -/
theorem C10_empty_pattern (eng : SearchEngine) (b : Buffer) (st : String)
    (cs : Bool) (sp : Option Nat)
    (rsp : List Nat → Nat → Option (Nat × Nat)) :
    find_next eng b [] st cs sp rsp = (none, eng) ∧
    find_all eng b [] st cs rsp = ([], eng) := by
  constructor <;> simp [find_next, find_all]

end Editpy
